import Mathlib

/-!
Verification of the laptop-catalog application (`app/main.py`).

The development shallowly embeds the data model and the operations of the
source file: JSON values become an inductive type, Python exceptions become
`Except`, the process-wide cache becomes explicit state passing, and the
stable `list.sort` becomes `List.insertionSort` (the output of a stable sort
by a total preorder is uniquely determined, so any stable sort is an exact
model).  Machine text is modelled over ASCII: `str.strip`, `str.lower` and
the regexes of `slugify` act on `List Char`.
-/

namespace LaptopApp

/-- Python `str.strip()` (ASCII whitespace model): drop whitespace from both
ends of the string. -/
def pyStrip (s : String) : String :=
  ⟨((s.data.dropWhile Char.isWhitespace).reverse.dropWhile Char.isWhitespace).reverse⟩

/-- Python `str.lower()` (ASCII model): lowercase every character. -/
def pyLower (s : String) : String :=
  ⟨s.data.map Char.toLower⟩

/-- Is `n` a prefix of `h`?  Auxiliary for the Python substring test `in`. -/
def isPrefixList : List Char → List Char → Bool
  | [], _ => true
  | _ :: _, [] => false
  | a :: la, b :: lb => a == b && isPrefixList la lb

/-- Python substring test `needle in hay`. -/
def containsSub (needle : List Char) : List Char → Bool
  | [] => needle.isEmpty
  | c :: rest => isPrefixList needle (c :: rest) || containsSub needle rest

/-- Decimal digits of a natural number, most significant first, with fuel so
that the definition is structural (and hence reduces inside `decide`).
Models Python `str(n)` for a non-negative `n`. -/
def natDigitsAux : Nat → Nat → List Char
  | 0, _ => []
  | fuel + 1, n =>
    if n < 10 then [Nat.digitChar n]
    else natDigitsAux fuel (n / 10) ++ [Nat.digitChar (n % 10)]

/-- Decimal digits of `n`, most significant first. -/
def natDigits (n : Nat) : List Char := natDigitsAux (n + 1) n

/-- Python `str(n)` for natural `n`. -/
def natStr (n : Nat) : String := ⟨natDigits n⟩

/-- Python `str(i)` for an integer. -/
def intStr (i : Int) : String :=
  if i < 0 then "-" ++ natStr i.natAbs else natStr i.natAbs

/-- Numeric value of a list of decimal digit characters (inverse of
`natDigits` on digit strings). -/
def digitsVal (l : List Char) : Nat :=
  l.foldl (fun a c => 10 * a + (c.toNat - 48)) 0

/-- JSON values as produced by Python `json.load`: `None`, `bool`, `int`,
`float` (modelled exactly as a rational), `str`, `list`, `dict` (an
association list; JSON objects parsed by Python have unique keys). -/
inductive JValue where
  | jnull
  | jbool (b : Bool)
  | jint (n : Int)
  | jfloat (q : Rat)
  | jstr (s : String)
  | jarr (xs : List JValue)
  | jobj (fields : List (String × JValue))

/-- A single-quote character, used by the Python `repr` of strings. -/
def quoteChar : String := String.singleton (Char.ofNat 39)

/-- Python `str()` of a float.  Python prints the shortest decimal that
round-trips through binary floating point; that format is approximated here
as `num/den` — no verified property depends on the textual form of a float. -/
def floatRepr (q : Rat) : String := intStr q.num ++ "/" ++ natStr q.den

mutual

/-- Python `repr()` of a JSON value (`str()` falls back to this for every
non-string value). -/
def pyRepr : JValue → String
  | .jnull => "None"
  | .jbool b => if b then "True" else "False"
  | .jint n => intStr n
  | .jfloat q => floatRepr q
  | .jstr s => quoteChar ++ s ++ quoteChar
  | .jarr xs => "[" ++ pyReprItems xs ++ "]"
  | .jobj fs => "\x7b" ++ pyReprFields fs ++ "\x7d"

/-- Comma-separated `repr`s of the elements of a list. -/
def pyReprItems : List JValue → String
  | [] => ""
  | [x] => pyRepr x
  | x :: y :: rest => pyRepr x ++ ", " ++ pyReprItems (y :: rest)

/-- Comma-separated `key: value` pairs of a dict `repr`. -/
def pyReprFields : List (String × JValue) → String
  | [] => ""
  | [kv] => quoteChar ++ kv.1 ++ quoteChar ++ ": " ++ pyRepr kv.2
  | kv :: p :: rest =>
    quoteChar ++ kv.1 ++ quoteChar ++ ": " ++ pyRepr kv.2 ++ ", " ++
      pyReprFields (p :: rest)

end

/-- Python `str()` of a JSON value: the string itself for `str`, the `repr`
for everything else. -/
def pyStr : JValue → String
  | .jstr s => s
  | v => pyRepr v

/-- Exceptions raised by the source: `FileNotFoundError` from the existence
check, the `ValueError("laptops.json must be a LIST of objects.")` raised on
a non-list top level, and the `ValueError` raised by `float()` when its
argument is not a valid decimal literal. -/
inductive PyErr where
  | fileNotFound (msg : String)
  | malformedData
  | floatConvError (s : String)
deriving DecidableEq

/-- Python `int(x)` applied to a number: truncation toward zero. -/
def ratTrunc (q : Rat) : Int :=
  if 0 ≤ q.num then ((q.num.toNat / q.den : Nat) : Int)
  else -((((-q.num).toNat / q.den : Nat) : Int))

/-- Python `float(s)` on a string made of digits and dots (the only shape
`parse_price` ever feeds it, after its `re.sub`): the exact decimal value
when there is at most one dot and at least one digit, `none` (a raised
`ValueError`) otherwise. -/
def parseDecimal (cs : List Char) : Option Rat :=
  if cs.all (fun c => c.isDigit || c == '.') then
    if cs.count '.' = 0 then
      if cs.isEmpty then none else some ((digitsVal cs : Nat) : Rat)
    else if cs.count '.' = 1 then
      let ip := cs.takeWhile (fun c => !(c == '.'))
      let fp := (cs.dropWhile (fun c => !(c == '.'))).tail
      if ip.isEmpty && fp.isEmpty then none
      else some (((digitsVal ip : Nat) : Rat) +
                 ((digitsVal fp : Nat) : Rat) / ((10 : Rat) ^ fp.length))
    else none
  else none

/-- `parse_price` of `app/main.py`: `None` gives 0; `int`/`float` (and
`bool`, which Python treats as an `int`) are truncated with `int(...)`;
everything else is coerced with `str(...)`, commas removed, stripped,
non-`[0-9.]` characters removed, and fed to `int(float(...))` unless the
residue is empty (then 0).  An error value models the `ValueError` that
`float()` raises on a residue with two dots or no digit. -/
def parse_price (value : JValue) : Except PyErr Int :=
  match value with
  | .jnull => .ok 0
  | .jbool b => .ok (if b then 1 else 0)
  | .jint n => .ok n
  | .jfloat q => .ok (ratTrunc q)
  | v =>
    let s0 := pyStr v
    let s1 := pyStrip ⟨s0.data.filter (fun c => !(c == ','))⟩
    let s2 : List Char := s1.data.filter (fun c => c.isDigit || c == '.')
    if s2.isEmpty then .ok 0
    else
      match parseDecimal s2 with
      | some q => .ok (ratTrunc q)
      | none => .error (.floatConvError ⟨s2⟩)

/-- Membership in the character class `[a-z0-9]` of `slugify`. -/
def isSlugChar (c : Char) : Bool :=
  (decide ('a' ≤ c) && decide (c ≤ 'z')) || (decide ('0' ≤ c) && decide (c ≤ '9'))

/-- `re.sub(r"[^a-z0-9]+", "-", t)` as a left-to-right scan: a maximal run
of characters outside `[a-z0-9]` becomes a single hyphen.  The flag records
whether the previous character was part of such a run. -/
def subNonAlnumAux : Bool → List Char → List Char
  | _, [] => []
  | inRun, c :: cs =>
    if isSlugChar c then c :: subNonAlnumAux false cs
    else if inRun then subNonAlnumAux true cs
    else '-' :: subNonAlnumAux true cs

/-- `re.sub(r"-{2,}", "-", t)`: every run of hyphens becomes a single
hyphen (a run of length one is unchanged, so collapsing all runs is the
same function). -/
def collapseHyphenAux : Bool → List Char → List Char
  | _, [] => []
  | prevHyphen, c :: cs =>
    if c == '-' then
      if prevHyphen then collapseHyphenAux true cs
      else '-' :: collapseHyphenAux true cs
    else c :: collapseHyphenAux false cs

/-- Python `str.strip("-")`: drop hyphens from both ends. -/
def stripHyphens (l : List Char) : List Char :=
  ((l.dropWhile (fun c => c == '-')).reverse.dropWhile (fun c => c == '-')).reverse

/-- `slugify` of `app/main.py`: strip, lowercase, replace runs of
non-alphanumerics by one hyphen, collapse hyphen runs, strip hyphens, and
fall back to `"item"` when empty. -/
def slugify (text : String) : String :=
  let t := pyLower (pyStrip text)
  let t := subNonAlnumAux false t.data
  let t := collapseHyphenAux false t
  let t := stripHyphens t
  if t.isEmpty then "item" else ⟨t⟩

/-- One catalog record, a Python dict with the five keys the loader writes.
`pic_urls` models the extra key that the listing route later assigns into
the dict (absent right after the load). -/
structure Record where
  id : String
  name : String
  price : Int
  pics : List String
  description : String
  pic_urls : Option (List String) := none
deriving DecidableEq

/-- Python `row.get(key, dflt)` on a parsed-JSON dict. -/
def dictGet (fields : List (String × JValue)) (key : String) (dflt : JValue) : JValue :=
  match fields.find? (fun p => p.1 == key) with
  | some p => p.2
  | none => dflt

/-- `normalize_pics` of `app/main.py`. -/
def normalize_pics (raw : JValue) : List String :=
  match raw with
  | .jnull => []
  | .jarr xs =>
    (xs.map (fun x => pyStrip (pyStr x))).filter (fun s => !(s == ""))
  | v =>
    let s := pyStrip (pyStr v)
    if s == "" then [] else [s]

/-- `resolve_pic_url` of `app/main.py`. -/
def resolve_pic_url (pic : String) : String :=
  let p := pyStrip pic
  if p == "" then ""
  else if isPrefixList "http://".data p.data || isPrefixList "https://".data p.data then p
  else if isPrefixList "/".data p.data then p
  else "/static/" ++ p

/-- One iteration of the loader loop of `load_laptops` on a dict entry at
0-based position `idx` of the source array: name defaulting, price parsing,
`pic`/`pics` selection, description, and the `{slug}-{idx+1}` identifier. -/
def buildRow (idx : Nat) (row : List (String × JValue)) : Except PyErr Record :=
  let name0 := pyStrip (pyStr (dictGet row "name" (.jstr "")))
  let name := if name0 == "" then "Untitled Laptop " ++ natStr (idx + 1) else name0
  match parse_price (dictGet row "price" (.jint 0)) with
  | .error e => .error e
  | .ok price =>
    let picsRaw :=
      match dictGet row "pic" .jnull with
      | .jnull => dictGet row "pics" .jnull
      | v => v
    .ok { id := slugify name ++ "-" ++ natStr (idx + 1),
          name := name,
          price := price,
          pics := normalize_pics picsRaw,
          description := pyStrip (pyStr (dictGet row "description" (.jstr ""))) }

/-- The loader loop `for idx, row in enumerate(data)`: non-dict entries are
skipped but still consume an index; the first raised exception aborts. -/
def buildItems (idx : Nat) : List JValue → Except PyErr (List Record)
  | [] => .ok []
  | .jobj fields :: rest =>
    match buildRow idx fields with
    | .error e => .error e
    | .ok r =>
      match buildItems (idx + 1) rest with
      | .error e => .error e
      | .ok rs => .ok (r :: rs)
  | _ :: rest => buildItems (idx + 1) rest

/-- The sort key of `items.sort(key=lambda x: x["price"])`. -/
def priceLe (a b : Record) : Prop := a.price ≤ b.price

instance : DecidableRel priceLe :=
  fun a b => inferInstanceAs (Decidable (a.price ≤ b.price))

instance : IsTotal Record priceLe := ⟨fun a b => Int.le_total a.price b.price⟩

instance : IsTrans Record priceLe := ⟨fun _ _ _ h1 h2 => le_trans h1 h2⟩

/-- The pure part of `load_laptops` applied to the parsed file content: the
`isinstance(data, list)` check, the build loop, and the stable sort by
price. -/
def loadItems (content : JValue) : Except PyErr (List Record) :=
  match content with
  | .jarr rows =>
    match buildItems 0 rows with
    | .error e => .error e
    | .ok items => .ok (List.insertionSort priceLe items)
  | _ => .error .malformedData

/-- The process-wide `_cache` dict: last-cached mtime and item list. -/
structure Cache where
  mtime : Option Nat
  items : List Record
deriving DecidableEq

/-- The `_cache` initial value `{"mtime": None, "items": []}`. -/
def initialCache : Cache := ⟨none, []⟩

/-- The state of the backing file `laptops.json`: whether it exists, its
current modification timestamp, and its parsed JSON content. -/
structure World where
  fileOnDisk : Bool
  mtime : Nat
  content : JValue

/-- `load_laptops` of `app/main.py` as a state transformer: result,
resulting cache, and whether the file was opened and parsed.  A raised
exception leaves the cache untouched (the assignments come last). -/
def load_laptops (w : World) (c : Cache) :
    Except PyErr (List Record) × Cache × Bool :=
  if !w.fileOnDisk then
    (.error (.fileNotFound "Missing data file: laptops.json"), c, false)
  else if c.mtime == some w.mtime && !c.items.isEmpty then
    (.ok c.items, c, false)
  else
    match loadItems w.content with
    | .error e => (.error e, c, true)
    | .ok items => (.ok items, { mtime := some w.mtime, items := items }, true)

/-- `filter_laptops` of `app/main.py`: successive narrowing by `min_price`,
`max_price`, and the query; `if q:` is Python truthiness, so both `None`
and the empty string skip the query filter. -/
def filter_laptops (items : List Record) (min_price max_price : Option Int)
    (q : Option String) : List Record :=
  let out := items
  let out := match min_price with
    | some m => out.filter (fun x => decide (m ≤ x.price))
    | none => out
  let out := match max_price with
    | some m => out.filter (fun x => decide (x.price ≤ m))
    | none => out
  match q with
  | some s =>
    if s == "" then out
    else
      let qq := pyLower (pyStrip s)
      out.filter (fun x => containsSub qq.data (pyLower x.name).data)
  | none => out

/-- `normalize_range_value` of `app/main.py`. -/
def normalize_range_value (v : Option Int) : Option Int :=
  match v with
  | none => none
  | some v => if 0 < v ∧ v < 1000 then some (v * 1000) else some v

/-- The route-level choice `min if min is not None else min_price`: the
short-form parameter wins when present. -/
def pickParam (short legacy : Option Int) : Option Int :=
  match short with
  | some v => some v
  | none => legacy

/-- The filtering performed by the listing route `home`: both parameter
pairs are merged (short form first) and normalized, then `filter_laptops`
runs.  Arguments: catalog, `min`, `min_price`, `max`, `max_price`, `q`. -/
def homeSelect (items : List Record) (mn mp mx xp : Option Int)
    (q : Option String) : List Record :=
  filter_laptops items
    (normalize_range_value (pickParam mn mp))
    (normalize_range_value (pickParam mx xp)) q

/-- The small placeholder image URL used by the listing route. -/
def placeholderThumb : String := "https://via.placeholder.com/160x120?text=No+Image"

/-- The large placeholder image URL used by the product route. -/
def placeholderLarge : String := "https://via.placeholder.com/900x600?text=No+Image"

/-- The loop body `x["pic_urls"] = [...]` of the listing route: resolve the
pics of a record and assign them into the dict (with the placeholder when
empty). -/
def decorate (x : Record) : Record :=
  let u := x.pics.map resolve_pic_url
  let u := if u.isEmpty then [placeholderThumb] else u
  { x with pic_urls := some u }

/-- Effect of one listing request on the cached snapshot: the filtered
records are the very dict objects held by the cache, so assigning
`pic_urls` on them updates the snapshot in place; records that do not pass
the filter are untouched.  (Records are dict values here; whether a record
passes the filter is a function of its value.) -/
def homeEffect (items : List Record) (mn mp mx xp : Option Int)
    (q : Option String) : List Record :=
  let filtered := homeSelect items mn mp mx xp q
  items.map (fun x => if x ∈ filtered then decorate x else x)

/-- `api_laptops` of `app/main.py`: filter with the raw query parameters
(no range normalization) and return `{count, items}`. -/
def api_laptops (items : List Record) (min_price max_price : Option Int)
    (q : Option String) : Nat × List Record :=
  let filtered := filter_laptops items min_price max_price q
  (filtered.length, filtered)

/-- `product_page` of `app/main.py`: find the record by id (404 when
absent), resolve pics, substitute the placeholder when empty, duplicate a
single pic, and present exactly two. -/
def product_page (items : List Record) (item_id : String) :
    Except Nat (Record × List String) :=
  match items.find? (fun x => x.id == item_id) with
  | none => .error 404
  | some item =>
    let pics := item.pics.map resolve_pic_url
    let pics := if pics.length = 0 then [placeholderLarge] else pics
    let pics := match pics with
      | [p] => [p, p]
      | l => l
    .ok (item, pics.take 2)

/-- Does a JSON value satisfy `isinstance(data, list)`? -/
def isArr : JValue → Bool
  | .jarr _ => true
  | _ => false

/-- Does a JSON value satisfy `isinstance(row, dict)`? -/
def isObj : JValue → Bool
  | .jobj _ => true
  | _ => false

/-- The record predicate stated by the specification for the Filter Engine
(§4.4), written from the specification text: every supplied bound holds,
and when a query is supplied the record name contains the trimmed query as
a case-insensitive substring.  An unsupplied predicate imposes no
constraint. -/
def spec_keep (mn mx : Option Int) (q : Option String) (x : Record) : Bool :=
  (match mn with | none => true | some m => decide (m ≤ x.price)) &&
  ((match mx with | none => true | some m => decide (x.price ≤ m)) &&
   (match q with
    | none => true
    | some s => containsSub (pyLower (pyStrip s)).data (pyLower x.name).data))

/-- Constraint on a source price value under which catalog prices are
non-negative: numeric source prices must be non-negative; absent, boolean
and textual prices are unconstrained. -/
def priceOk : JValue → Prop
  | .jint n => 0 ≤ n
  | .jfloat q => 0 ≤ q
  | _ => True

/-- The five fields written by the loader (everything except the derived
`pic_urls` key). -/
def coreFields (r : Record) : String × String × Int × List String × String :=
  (r.id, r.name, r.price, r.pics, r.description)

/-- The numeric tag of a generated identifier: the decimal value of the
character run after the last hyphen.  For an id `{slug}-{n}` this recovers
`n`, whatever the slug is. -/
def idTag (s : String) : Nat :=
  digitsVal ((s.data.reverse.takeWhile (fun c => !(c == '-'))).reverse)

/-- A concrete freshly-loaded record (no `pic_urls` key yet) used to
exhibit the in-place mutation performed by the listing route. -/
def snapshotR : Record :=
  { id := "a-1", name := "A", price := 0, pics := [], description := "" }

/-- A concrete record priced between a shorthand bound and its
thousandfold, separating the API filtering from the listing filtering. -/
def apiDemoR : Record :=
  { id := "mid-1", name := "Mid", price := 500, pics := [], description := "" }

/-- Concrete source rows with two equal prices out of order, to exhibit
sortedness and stability. -/
def demoRows : List JValue :=
  [.jobj [("name", .jstr "B"), ("price", .jint 2)],
   .jobj [("name", .jstr "A"), ("price", .jint 2)],
   .jobj [("name", .jstr "C"), ("price", .jint 1)]]

/-- The records `demoRows` produces, in source order (before the sort). -/
def demoPre : List Record :=
  [{ id := "b-1", name := "B", price := 2, pics := [], description := "" },
   { id := "a-2", name := "A", price := 2, pics := [], description := "" },
   { id := "c-3", name := "C", price := 1, pics := [], description := "" }]

/-- The catalog loaded from `demoRows`: sorted by price, ties in source
order. -/
def demoItems : List Record :=
  [{ id := "c-3", name := "C", price := 1, pics := [], description := "" },
   { id := "b-1", name := "B", price := 2, pics := [], description := "" },
   { id := "a-2", name := "A", price := 2, pics := [], description := "" }]

/-- Concrete source rows with two identical names, to exhibit identifier
uniqueness. -/
def dupNameRows : List JValue :=
  [.jobj [("name", .jstr "A")], .jobj [("name", .jstr "A")]]

/-- The catalog loaded from `dupNameRows`: same name, distinct ids. -/
def dupNameItems : List Record :=
  [{ id := "a-1", name := "A", price := 0, pics := [], description := "" },
   { id := "a-2", name := "A", price := 0, pics := [], description := "" }]

/-- A concrete source row whose price is a non-negative number. -/
def sevenRows : List JValue := [.jobj [("price", .jint 7)]]

/-- The single record loaded from `sevenRows` (the empty name falls back
to the generated placeholder). -/
def sevenRec : Record :=
  { id := "untitled-laptop-1-1", name := "Untitled Laptop 1", price := 7,
    pics := [], description := "" }

/-- The catalog loaded from `sevenRows`. -/
def sevenItems : List Record := [sevenRec]

/-! ### Helper lemmas -/

/-- The empty string is a substring of everything (Python `"" in s`). -/
theorem containsSub_nil (l : List Char) : containsSub [] l = true := by
  induction l with
  | nil => rfl
  | cons c rest ih => simp [containsSub, isPrefixList]

/-! ### C1 -/

/-- C1: the claim says `parse_price` never raises and returns 0 in the
worst case; the code refutes it.  On the textual input `"Rs. 45,000.50"`
the character filter leaves `".45000.50"`, which has two decimal points, so
Python `float()` raises a `ValueError` that nothing catches. -/
theorem parse_price_raises_on_two_dots :
    parse_price (JValue.jstr "Rs. 45,000.50") =
      .error (.floatConvError ".45000.50") := by
  rfl

/-! ### C7 -/

/-- C7: range normalization maps `None` to `None`, a value strictly
between 0 and 1000 to its thousandfold, and any other value to itself; and
on the listing route the short-form parameter, when supplied, is the one
that is normalized and used for filtering, whatever the legacy parameter
holds. -/
theorem range_normalization_and_short_form_wins :
    normalize_range_value none = none
    ∧ (∀ v : Int, 0 < v → v < 1000 →
        normalize_range_value (some v) = some (v * 1000))
    ∧ (∀ v : Int, ¬(0 < v ∧ v < 1000) →
        normalize_range_value (some v) = some v)
    ∧ (∀ (items : List Record) (v : Int) (legacy mx xp : Option Int)
        (q : Option String),
        homeSelect items (some v) legacy mx xp q =
          filter_laptops items (normalize_range_value (some v))
            (normalize_range_value (pickParam mx xp)) q)
    ∧ (∀ (items : List Record) (v : Int) (legacy mn mp : Option Int)
        (q : Option String),
        homeSelect items mn mp (some v) legacy q =
          filter_laptops items (normalize_range_value (pickParam mn mp))
            (normalize_range_value (some v)) q) := by
  refine ⟨rfl, ?_, ?_, ?_, ?_⟩
  · intro v h1 h2
    simp [normalize_range_value, h1, h2]
  · intro v h
    simp only [normalize_range_value, if_neg h]
  · intro items v legacy mx xp q
    rfl
  · intro items v legacy mn mp q
    rfl

/-- C7 witness: concrete evaluations of the three normalization cases and
of the short-form priority. -/
theorem range_normalization_witness :
    normalize_range_value (some 50) = some (50 * 1000)
    ∧ normalize_range_value (some 1000) = some 1000
    ∧ homeSelect [] (some 50) (some 7) none none none =
        filter_laptops [] (normalize_range_value (some 50))
          (normalize_range_value (pickParam none none)) none :=
  ⟨range_normalization_and_short_form_wins.2.1 50 (by decide) (by decide),
   range_normalization_and_short_form_wins.2.2.1 1000 (by decide),
   range_normalization_and_short_form_wins.2.2.2.1 [] 50 (some 7) none none none⟩

/-! ### C9 -/

/-- C9: the cache contract of `load_laptops`.  When the file exists: if the
cached timestamp equals the file timestamp and the cached sequence is
non-empty, the very cached sequence is returned, the cache is unchanged and
the file is not read; otherwise the file is read, the catalog fully
recomputed, and on success both cache fields are replaced. -/
theorem cache_contract :
    ∀ (w : World) (c : Cache), w.fileOnDisk = true →
      ((c.mtime = some w.mtime ∧ c.items ≠ []) →
        load_laptops w c = (.ok c.items, c, false))
      ∧ (¬(c.mtime = some w.mtime ∧ c.items ≠ []) →
        load_laptops w c =
          (match loadItems w.content with
           | .error e => (.error e, c, true)
           | .ok items => (.ok items, ⟨some w.mtime, items⟩, true))) := by
  intro w c hw
  constructor
  · rintro ⟨h1, h2⟩
    simp [load_laptops, hw, h1, h2]
  · intro h
    have hcond : (c.mtime == some w.mtime && !c.items.isEmpty) = false := by
      by_cases h1 : c.mtime = some w.mtime
      · have h2 : c.items = [] := by
          by_contra h2
          exact h ⟨h1, h2⟩
        simp [h2]
      · simp [h1]
    simp only [load_laptops, hw, Bool.not_true, Bool.false_eq_true, if_false, hcond]

/-- C9 witness: a cache hit on an unchanged timestamp with a non-empty
cached sequence returns exactly the cached sequence without reading the
file. -/
theorem cache_contract_witness :
    load_laptops ⟨true, 5, .jarr []⟩ ⟨some 5, [snapshotR]⟩ =
      (.ok [snapshotR], ⟨some 5, [snapshotR]⟩, false) :=
  (cache_contract ⟨true, 5, .jarr []⟩ ⟨some 5, [snapshotR]⟩ rfl).1
    ⟨rfl, by decide⟩

/-! ### C8 -/

/-- Every error raised by `parse_price` is a `float()` conversion error. -/
theorem parse_price_err_shape (v : JValue) (e : PyErr)
    (h : parse_price v = .error e) : ∃ s, e = .floatConvError s := by
  cases v <;> simp only [parse_price] at h
  case jnull => exact absurd h (by simp)
  case jbool b => exact absurd h (by simp)
  case jint n => exact absurd h (by simp)
  case jfloat q => exact absurd h (by simp)
  case jstr s =>
    split at h
    · exact absurd h (by simp)
    · split at h
      · exact absurd h (by simp)
      · exact ⟨_, (Except.error.injEq _ _).mp h |>.symm⟩
  case jarr xs =>
    split at h
    · exact absurd h (by simp)
    · split at h
      · exact absurd h (by simp)
      · exact ⟨_, (Except.error.injEq _ _).mp h |>.symm⟩
  case jobj fs =>
    split at h
    · exact absurd h (by simp)
    · split at h
      · exact absurd h (by simp)
      · exact ⟨_, (Except.error.injEq _ _).mp h |>.symm⟩

/-- Every error raised by the loader loop body is a `float()` conversion
error. -/
theorem buildRow_err_shape (idx : Nat) (row : List (String × JValue))
    (e : PyErr) (h : buildRow idx row = .error e) :
    ∃ s, e = .floatConvError s := by
  unfold buildRow at h
  split at h
  next e0 heq =>
    have h2 : (Except.error e0 : Except PyErr Record) = .error e := h
    obtain rfl := (Except.error.injEq _ _).mp h2
    exact parse_price_err_shape _ _ heq
  next => exact absurd h (by simp)

/-- Every error raised by the loader loop is a `float()` conversion
error. -/
theorem buildItems_err_shape :
    ∀ (rows : List JValue) (idx : Nat) (e : PyErr),
      buildItems idx rows = .error e → ∃ s, e = .floatConvError s := by
  intro rows
  induction rows with
  | nil => intro idx e h; exact absurd h (by simp [buildItems])
  | cons x rest ih =>
    intro idx e h
    cases x <;> simp only [buildItems] at h
    case jobj fields =>
      split at h
      next e0 heq =>
        obtain rfl := (Except.error.injEq _ _).mp h
        exact buildRow_err_shape _ _ _ heq
      next =>
        split at h
        next heq => exact ih _ _ (heq.trans h)
        next => exact absurd h (by simp)
    all_goals exact ih _ _ h

/-- Every error of the parse-and-build path is either the malformed-data
condition (non-list top level) or a `float()` conversion error. -/
theorem loadItems_err_shape (content : JValue) (e : PyErr)
    (h : loadItems content = .error e) :
    e = .malformedData ∨ ∃ s, e = .floatConvError s := by
  cases content <;> simp only [loadItems] at h
  case jarr rows =>
    split at h
    next heq => exact Or.inr (buildItems_err_shape rows 0 e (heq.trans h))
    next => exact absurd h (by simp)
  all_goals exact Or.inl ((Except.error.injEq _ _).mp h).symm

/-- On a cache miss with an existing file, `load_laptops` returns exactly
the outcome of the parse-and-build path. -/
theorem load_laptops_initial (w : World) (hw : w.fileOnDisk = true) :
    (load_laptops w initialCache).1 = loadItems w.content := by
  have hmiss : (initialCache.mtime == some w.mtime
      && !initialCache.items.isEmpty) = false := rfl
  simp only [load_laptops, hw, Bool.not_true, Bool.false_eq_true, if_false, hmiss]
  cases h : loadItems w.content <;> simp

/-- C8: with an empty cache, the loader fails with the missing-file
condition exactly when the backing file does not exist; when it exists, it
fails with the malformed-data condition exactly when the parsed content is
not a list; and a non-dict entry of the list is skipped silently, the loop
simply moving on to the next index. -/
theorem loader_error_conditions :
    ∀ w : World,
      (((load_laptops w initialCache).1 =
          .error (.fileNotFound "Missing data file: laptops.json"))
        ↔ w.fileOnDisk = false)
      ∧ (w.fileOnDisk = true →
          (((load_laptops w initialCache).1 = .error .malformedData)
            ↔ isArr w.content = false))
      ∧ (∀ (idx : Nat) (x : JValue) (rest : List JValue), isObj x = false →
          buildItems idx (x :: rest) = buildItems (idx + 1) rest) := by
  intro w
  refine ⟨?_, ?_, ?_⟩
  · cases hw : w.fileOnDisk
    · simp [load_laptops, hw, initialCache]
    · rw [load_laptops_initial w hw]
      constructor
      · intro h
        rcases loadItems_err_shape w.content _ h with h1 | ⟨s, h1⟩ <;> simp at h1
      · intro h
        simp at h
  · intro hw
    rw [load_laptops_initial w hw]
    cases hc : w.content
    case jarr rows =>
      simp only [loadItems, isArr]
      constructor
      · intro h
        split at h
        next e0 heq =>
          obtain rfl := (Except.error.injEq _ _).mp h
          obtain ⟨s, hs⟩ := buildItems_err_shape rows 0 _ heq
          simp at hs
        next => exact absurd h (by simp)
      · intro h
        simp at h
    all_goals simp [loadItems, isArr]
  · intro idx x rest hx
    cases x <;> first
      | rfl
      | exact absurd hx (by simp [isObj])

/-- C8 witness: a missing file raises the missing-file condition, a
non-list top level raises the malformed-data condition, and a string entry
inside the list is skipped. -/
theorem loader_error_conditions_witness :
    (load_laptops ⟨false, 0, .jnull⟩ initialCache).1 =
      .error (.fileNotFound "Missing data file: laptops.json")
    ∧ (load_laptops ⟨true, 0, .jnull⟩ initialCache).1 = .error .malformedData
    ∧ buildItems 0 [JValue.jstr "junk"] = buildItems 1 [] :=
  ⟨(loader_error_conditions ⟨false, 0, .jnull⟩).1.mpr rfl,
   ((loader_error_conditions ⟨true, 0, .jnull⟩).2.1 rfl).mpr rfl,
   (loader_error_conditions ⟨true, 0, .jnull⟩).2.2 0 (JValue.jstr "junk") [] rfl⟩

/-! ### C6 -/

/-- C6: `filter_laptops` returns exactly the ordered subsequence of the
input satisfying all supplied predicates — `price` at least `min_price`
when supplied, `price` at most `max_price` when supplied, and the name
containing the trimmed query case-insensitively when supplied — with an
unsupplied predicate imposing no constraint, so that filtering with no
predicates returns the full catalog.  (A supplied query that is empty or
blank is skipped by the code and trivially satisfied by the specification
predicate, so the two agree there as well.) -/
theorem filter_engine_characterization :
    ∀ (items : List Record) (mn mx : Option Int) (q : Option String),
      filter_laptops items mn mx q = items.filter (fun x => spec_keep mn mx q x) := by
  have hperm : ∀ a b c : Bool, (c && (b && a)) = (a && (b && c)) := by decide
  have hnil : (pyLower (pyStrip "")).data = ([] : List Char) := rfl
  intro items mn mx q
  cases mn with
  | none =>
    cases mx with
    | none =>
      cases q with
      | none => simp [filter_laptops, spec_keep]
      | some s =>
        by_cases hs : s = ""
        · subst hs
          simp [filter_laptops, spec_keep, hnil, containsSub_nil]
        · have hs2 : (s == "") = false := by simpa using hs
          simp [filter_laptops, spec_keep, hs2]
    | some b =>
      cases q with
      | none => simp [filter_laptops, spec_keep]
      | some s =>
        by_cases hs : s = ""
        · subst hs
          simp [filter_laptops, spec_keep, hnil, containsSub_nil]
        · have hs2 : (s == "") = false := by simpa using hs
          simp only [filter_laptops, spec_keep, hs2, Bool.false_eq_true, if_false,
            List.filter_filter, Bool.true_and]
          exact List.filter_congr fun x _ => Bool.and_comm _ _
  | some a =>
    cases mx with
    | none =>
      cases q with
      | none => simp [filter_laptops, spec_keep]
      | some s =>
        by_cases hs : s = ""
        · subst hs
          simp [filter_laptops, spec_keep, hnil, containsSub_nil]
        · have hs2 : (s == "") = false := by simpa using hs
          simp only [filter_laptops, spec_keep, hs2, Bool.false_eq_true, if_false,
            List.filter_filter, Bool.true_and]
          exact List.filter_congr fun x _ => Bool.and_comm _ _
    | some b =>
      cases q with
      | none =>
        simp only [filter_laptops, spec_keep, List.filter_filter, Bool.and_true]
        exact List.filter_congr fun x _ => Bool.and_comm _ _
      | some s =>
        by_cases hs : s = ""
        · subst hs
          simp only [filter_laptops, spec_keep, hnil, containsSub_nil,
            beq_self_eq_true, if_true, List.filter_filter, Bool.and_true]
          exact List.filter_congr fun x _ => Bool.and_comm _ _
        · have hs2 : (s == "") = false := by simpa using hs
          simp only [filter_laptops, spec_keep, hs2, Bool.false_eq_true, if_false,
            List.filter_filter]
          exact List.filter_congr fun x _ => hperm _ _ _

/-! ### C10 -/

/-- C10: the JSON API filters with the supplied bounds exactly as given —
no range-shorthand normalization — while the listing route multiplies a
bound strictly between 0 and 1000 by 1000: for the same catalog and bound
`v`, the API keeps prices `≥ v` (resp. `≤ v`) and the listing route keeps
prices `≥ v * 1000` (resp. `≤ v * 1000`). -/
theorem api_skips_range_normalization :
    ∀ (items : List Record) (v : Int), 0 < v → v < 1000 →
      (api_laptops items (some v) none none).2 =
          items.filter (fun x => decide (v ≤ x.price))
      ∧ (api_laptops items none (some v) none).2 =
          items.filter (fun x => decide (x.price ≤ v))
      ∧ homeSelect items (some v) none none none none =
          items.filter (fun x => decide (v * 1000 ≤ x.price))
      ∧ homeSelect items none none (some v) none none =
          items.filter (fun x => decide (x.price ≤ v * 1000)) := by
  intro items v h1 h2
  have hn : normalize_range_value (some v) = some (v * 1000) := by
    simp [normalize_range_value, h1, h2]
  refine ⟨rfl, rfl, ?_, ?_⟩
  · show filter_laptops items (normalize_range_value (some v))
        (normalize_range_value none) none = _
    rw [hn]
    rfl
  · show filter_laptops items (normalize_range_value none)
        (normalize_range_value (some v)) none = _
    rw [hn]
    rfl

/-- C10 witness: with a record priced 500 and the bound 50, the API route
keeps it while the listing route (after normalizing 50 to 50000) does
not. -/
theorem api_skips_range_normalization_witness :
    (api_laptops [apiDemoR] (some 50) none none).2 =
        [apiDemoR].filter (fun x => decide ((50 : Int) ≤ x.price))
    ∧ (api_laptops [apiDemoR] none (some 50) none).2 =
        [apiDemoR].filter (fun x => decide (x.price ≤ (50 : Int)))
    ∧ homeSelect [apiDemoR] (some 50) none none none none =
        [apiDemoR].filter (fun x => decide ((50 : Int) * 1000 ≤ x.price))
    ∧ homeSelect [apiDemoR] none none (some 50) none none =
        [apiDemoR].filter (fun x => decide (x.price ≤ (50 : Int) * 1000)) :=
  api_skips_range_normalization [apiDemoR] 50 (by decide) (by decide)

/-! ### C5 -/

/-- C5 counterexample: serving a listing request with no filters mutates
the cached snapshot in place — the record acquires a `pic_urls` key it did
not have when the snapshot was built, so the snapshot is not the same
afterwards. -/
theorem home_request_mutates_snapshot :
    homeEffect [snapshotR] none none none none none ≠ [snapshotR] := by
  decide

/-- C5 (amended): the listing route only ever adds or overwrites the
derived `pic_urls` key on the records it displays; the five loader-written
fields (id, name, price, pics, description) of every record of the cached
snapshot are unchanged by a request, and the snapshot list itself is only
replaced wholesale on reload. -/
theorem home_preserves_core_fields :
    ∀ (items : List Record) (mn mp mx xp : Option Int) (q : Option String),
      (homeEffect items mn mp mx xp q).map coreFields = items.map coreFields := by
  intro items mn mp mx xp q
  unfold homeEffect
  rw [List.map_map]
  refine List.map_congr_left ?_
  intro x hx
  by_cases hmem : x ∈ homeSelect items mn mp mx xp q
  · simp [hmem, Function.comp, decorate, coreFields]
  · simp [hmem, Function.comp]

/-! ### C2 -/

/-- Truncation of a non-negative number is non-negative. -/
theorem ratTrunc_nonneg {q : Rat} (h : 0 ≤ q) : 0 ≤ ratTrunc q := by
  unfold ratTrunc
  rw [if_pos (Rat.num_nonneg.mpr h)]
  exact Int.natCast_nonneg _

/-- Whatever `float()` parses out of a digits-and-dots string is
non-negative. -/
theorem parseDecimal_nonneg {cs : List Char} {q : Rat}
    (h : parseDecimal cs = some q) : 0 ≤ q := by
  simp only [parseDecimal] at h
  split at h
  · split at h
    · split at h
      · exact absurd h (by simp)
      · obtain rfl := (Option.some.injEq _ _).mp h
        exact Nat.cast_nonneg _
    · split at h
      · split at h
        · exact absurd h (by simp)
        · obtain rfl := (Option.some.injEq _ _).mp h
          have h10 : (0 : Rat) ≤ 10 := by norm_num
          exact add_nonneg (Nat.cast_nonneg _)
            (div_nonneg (Nat.cast_nonneg _) (pow_nonneg h10 _))
      · exact absurd h (by simp)
  · exact absurd h (by simp)

/-- `parse_price` is non-negative on every input whose numeric form (if
any) is non-negative; in particular on every absent, boolean or textual
input for which it succeeds. -/
theorem parse_price_nonneg (v : JValue) (r : Int)
    (h : parse_price v = .ok r) (hok : priceOk v) : 0 ≤ r := by
  cases v <;> simp only [parse_price] at h
  case jnull => exact le_of_eq ((Except.ok.injEq _ _).mp h)
  case jbool b =>
    obtain rfl := (Except.ok.injEq _ _).mp h
    cases b <;> simp
  case jint n =>
    obtain rfl := (Except.ok.injEq _ _).mp h
    exact hok
  case jfloat q =>
    obtain rfl := (Except.ok.injEq _ _).mp h
    exact ratTrunc_nonneg hok
  all_goals
    split at h
    next => exact le_of_eq ((Except.ok.injEq _ _).mp h)
    next =>
      split at h
      next q2 heq =>
        obtain rfl := (Except.ok.injEq _ _).mp h
        exact ratTrunc_nonneg (parseDecimal_nonneg heq)
      next => exact absurd h (by simp)

/-- The price a loaded record carries is the one `parse_price` returned
for its source row. -/
theorem buildRow_price (idx : Nat) (row : List (String × JValue)) (r : Record)
    (h : buildRow idx row = .ok r) :
    ∃ p, parse_price (dictGet row "price" (.jint 0)) = .ok p ∧ r.price = p := by
  unfold buildRow at h
  split at h
  next => exact absurd h (by simp)
  next p heq =>
    refine ⟨p, heq, ?_⟩
    have h2 := congrArg (fun x => match x with
      | Except.ok rec => rec.price
      | Except.error _ => (0 : Int)) h
    simpa using h2.symm

/-- Records built from rows with well-signed prices have non-negative
prices. -/
theorem buildItems_price_nonneg :
    ∀ (rows : List JValue) (idx : Nat) (items : List Record),
      buildItems idx rows = .ok items →
      (∀ fields, JValue.jobj fields ∈ rows →
        priceOk (dictGet fields "price" (.jint 0))) →
      ∀ x ∈ items, 0 ≤ x.price := by
  intro rows
  induction rows with
  | nil =>
    intro idx items h hok x hx
    simp only [buildItems] at h
    obtain rfl := (Except.ok.injEq _ _).mp h
    simp at hx
  | cons row rest ih =>
    intro idx items h hok x hx
    cases row <;> simp only [buildItems] at h
    case jobj fields =>
      split at h
      next => exact absurd h (by simp)
      next r heq =>
        split at h
        next => exact absurd h (by simp)
        next rs heq2 =>
          obtain rfl := (Except.ok.injEq _ _).mp h
          rcases List.mem_cons.mp hx with rfl | hx2
          · obtain ⟨p, hp, hrp⟩ := buildRow_price idx fields x heq
            rw [hrp]
            exact parse_price_nonneg _ _ hp (hok fields (List.mem_cons_self _ _))
          · exact ih (idx + 1) rs heq2
              (fun f hf => hok f (List.mem_cons_of_mem _ hf)) x hx2
    all_goals
      exact ih (idx + 1) items h
        (fun f hf => hok f (List.mem_cons_of_mem _ hf)) x hx

/-- C2 counterexample: the claim says `parse_price` always returns a
non-negative integer; a negative numeric input passes through `int(...)`
with its sign intact. -/
theorem parse_price_negative_cex :
    parse_price (JValue.jint (-5)) = .ok (-5) ∧ (-5 : Int) < 0 :=
  ⟨rfl, by decide⟩

/-- C2 (amended): absent input yields 0, numeric input is truncated to an
integer preserving its sign, and any successfully parsed absent, boolean
or textual input yields a non-negative integer; consequently every record
of a loaded catalog has `price ≥ 0` provided no source row carries a
negative numeric price. -/
theorem parse_price_sign_and_catalog_nonneg :
    parse_price .jnull = .ok 0
    ∧ (∀ n : Int, parse_price (.jint n) = .ok n)
    ∧ (∀ q : Rat, parse_price (.jfloat q) = .ok (ratTrunc q))
    ∧ (∀ (v : JValue) (r : Int), parse_price v = .ok r → priceOk v → 0 ≤ r)
    ∧ (∀ (rows : List JValue) (items : List Record),
        loadItems (.jarr rows) = .ok items →
        (∀ fields, JValue.jobj fields ∈ rows →
          priceOk (dictGet fields "price" (.jint 0))) →
        ∀ x ∈ items, 0 ≤ x.price) := by
  refine ⟨rfl, fun n => rfl, fun q => rfl, parse_price_nonneg, ?_⟩
  intro rows items h hok x hx
  simp only [loadItems] at h
  split at h
  next => exact absurd h (by simp)
  next pre heq =>
    obtain rfl := (Except.ok.injEq _ _).mp h
    exact buildItems_price_nonneg rows 0 pre heq hok x
      ((List.mem_insertionSort priceLe).mp hx)

/-- C2 witness: the textual price `"Rs 45,000"` parses to the non-negative
45000, and the catalog loaded from a row priced 7 carries a non-negative
price. -/
theorem parse_price_sign_witness :
    (0 : Int) ≤ 45000 ∧ (0 : Int) ≤ sevenRec.price := by
  constructor
  · have h := parse_price_sign_and_catalog_nonneg.2.2.2.1
      (.jstr "Rs 45,000") 45000 (by rfl) trivial
    exact h
  · refine parse_price_sign_and_catalog_nonneg.2.2.2.2 sevenRows sevenItems
      (by rfl) ?_ _ ?_
    · intro fields hf
      have hf2 : fields = [("price", JValue.jint 7)] := by
        simpa [sevenRows] using hf
      subst hf2
      show (0 : Int) ≤ 7
      decide
    · show sevenRec ∈ sevenItems
      simp [sevenItems]

/-! ### C3 -/

/-- Price-class filtering through `orderedInsert`: the inserted record
lands in front of its own price class and other classes are untouched. -/
theorem filter_orderedInsert_price (v : Int) (r : Record) :
    ∀ l : List Record,
      (List.orderedInsert priceLe r l).filter (fun x => x.price == v)
        = if r.price = v then r :: l.filter (fun x => x.price == v)
          else l.filter (fun x => x.price == v) := by
  intro l
  induction l with
  | nil =>
    by_cases hr : r.price = v <;>
      simp [List.orderedInsert, List.filter_cons, hr]
  | cons b bl ih =>
    rw [List.orderedInsert]
    by_cases hle : priceLe r b
    · rw [if_pos hle]
      by_cases hr : r.price = v <;> simp [List.filter_cons, hr]
    · rw [if_neg hle]
      by_cases hb : b.price = v
      · by_cases hr : r.price = v
        · have : priceLe r b := by
            show r.price ≤ b.price
            rw [hr, hb]
          exact absurd this hle
        · simp [List.filter_cons, hb, hr, ih]
      · simp [List.filter_cons, hb, ih]

/-- Stability of the sort: each price class of the sorted output is
exactly the price class of the input, in input order. -/
theorem filter_insertionSort_price (v : Int) :
    ∀ l : List Record,
      (List.insertionSort priceLe l).filter (fun x => x.price == v)
        = l.filter (fun x => x.price == v) := by
  intro l
  induction l with
  | nil => rfl
  | cons a l ih =>
    rw [List.insertionSort, filter_orderedInsert_price]
    by_cases ha : a.price = v
    · rw [if_pos ha, ih, List.filter_cons, if_pos (by simpa using ha)]
    · rw [if_neg ha, ih, List.filter_cons, if_neg (by simpa using ha)]

/-- C3: a successfully loaded catalog is sorted ascending by price, and
the sort is stable: for every price, the subsequence of records at that
price equals the corresponding subsequence of the pre-sort build, which is
in source order. -/
theorem catalog_sorted_and_stable :
    ∀ (rows : List JValue) (pre items : List Record) (v : Int),
      buildItems 0 rows = .ok pre →
      loadItems (.jarr rows) = .ok items →
      List.Sorted priceLe items
      ∧ items.filter (fun x => x.price == v) =
          pre.filter (fun x => x.price == v) := by
  intro rows pre items v h1 h2
  simp only [loadItems, h1] at h2
  obtain rfl := (Except.ok.injEq _ _).mp h2
  exact ⟨List.sorted_insertionSort priceLe pre, filter_insertionSort_price v pre⟩

/-- C3 witness: the catalog loaded from two records priced 2 (named B then
A in the source) and one priced 1 is sorted `1, 2, 2`, and the class of
price 2 keeps B before A, their source order. -/
theorem catalog_sorted_and_stable_witness :
    List.Sorted priceLe demoItems
    ∧ demoItems.filter (fun x => x.price == (2 : Int)) =
        demoPre.filter (fun x => x.price == (2 : Int)) :=
  catalog_sorted_and_stable demoRows demoPre demoItems 2 (by rfl) (by rfl)

/-! ### C4 -/

/-- Character value of a decimal digit. -/
theorem digitChar_toNat {d : Nat} (h : d < 10) :
    (Nat.digitChar d).toNat = 48 + d := by
  interval_cases d <;> rfl

/-- Decimal digits are never the hyphen. -/
theorem digitChar_ne_hyphen {d : Nat} (h : d < 10) : Nat.digitChar d ≠ '-' := by
  interval_cases d <;> decide

/-- With enough fuel, the digit expansion contains no hyphen and is
inverted by `digitsVal`. -/
theorem natDigitsAux_spec :
    ∀ (fuel n : Nat), n < fuel →
      (∀ c ∈ natDigitsAux fuel n, c ≠ '-')
      ∧ digitsVal (natDigitsAux fuel n) = n := by
  intro fuel
  induction fuel with
  | zero => intro n h; omega
  | succ fuel ih =>
    intro n hn
    by_cases h10 : n < 10
    · simp only [natDigitsAux, if_pos h10]
      constructor
      · intro c hc
        rw [List.mem_singleton.mp hc]
        exact digitChar_ne_hyphen h10
      · simp [digitsVal, digitChar_toNat h10]
    · have hn10 : n / 10 < fuel := by
        have := Nat.div_lt_self (show 0 < n by omega) (show 1 < 10 by omega)
        omega
      obtain ⟨hmem, hval⟩ := ih (n / 10) hn10
      simp only [natDigitsAux, if_neg h10]
      constructor
      · intro c hc
        rcases List.mem_append.mp hc with hc1 | hc2
        · exact hmem c hc1
        · rw [List.mem_singleton.mp hc2]
          exact digitChar_ne_hyphen (Nat.mod_lt _ (by omega))
      · show (natDigitsAux fuel (n / 10) ++ [Nat.digitChar (n % 10)]).foldl
            (fun a c => 10 * a + (c.toNat - 48)) 0 = n
        rw [List.foldl_append]
        have hv : (natDigitsAux fuel (n / 10)).foldl
            (fun a c => 10 * a + (c.toNat - 48)) 0 = n / 10 := hval
        simp only [List.foldl_cons, List.foldl_nil, hv,
          digitChar_toNat (Nat.mod_lt n (show 10 > 0 by omega))]
        omega

/-- The decimal digits of `n` contain no hyphen and evaluate back to
`n`. -/
theorem natDigits_spec (n : Nat) :
    (∀ c ∈ natDigits n, c ≠ '-') ∧ digitsVal (natDigits n) = n :=
  natDigitsAux_spec (n + 1) n (by omega)

/-- `takeWhile` collects a satisfying run up to the first failure. -/
theorem takeWhile_append_middle {α : Type} (p : α → Bool) :
    ∀ (l1 : List α) (x : α) (l2 : List α),
      (∀ a ∈ l1, p a = true) → p x = false →
      (l1 ++ x :: l2).takeWhile p = l1 := by
  intro l1
  induction l1 with
  | nil =>
    intro x l2 _ hx
    simp [List.takeWhile_cons, hx]
  | cons a l ih =>
    intro x l2 h1 hx
    have ha : p a = true := h1 a (List.mem_cons_self _ _)
    simp only [List.cons_append, List.takeWhile_cons, ha, if_true]
    rw [ih x l2 (fun b hb => h1 b (List.mem_cons_of_mem _ hb)) hx]

/-- The tag extractor recovers the appended index, whatever the slug
is. -/
theorem idTag_append (s : String) (n : Nat) :
    idTag (s ++ "-" ++ natStr n) = n := by
  obtain ⟨hmem, hval⟩ := natDigits_spec n
  have hdata : (s ++ "-" ++ natStr n).data = s.data ++ '-' :: natDigits n := by
    show (s.data ++ ['-']) ++ natDigits n = s.data ++ '-' :: natDigits n
    simp
  have hrev : (s.data ++ '-' :: natDigits n).reverse
      = (natDigits n).reverse ++ '-' :: s.data.reverse := by
    simp [List.reverse_append]
  unfold idTag
  rw [hdata, hrev,
    takeWhile_append_middle (fun c => !(c == '-')) ((natDigits n).reverse) '-'
      s.data.reverse
      (fun a ha => by
        have h2 := hmem a (List.mem_reverse.mp ha)
        simp [h2])
      (by decide),
    List.reverse_reverse]
  exact hval

/-- Every successfully built record carries its 1-based source position as
its id tag. -/
theorem buildRow_id (idx : Nat) (row : List (String × JValue)) (r : Record)
    (h : buildRow idx row = .ok r) : idTag r.id = idx + 1 := by
  unfold buildRow at h
  split at h
  next => exact absurd h (by simp)
  next p heq =>
    have h2 := congrArg (fun x => match x with
      | Except.ok rec => rec.id
      | Except.error _ => "") h
    simp only at h2
    rw [← h2]
    exact idTag_append _ _

/-- The loader loop produces records with strictly increasing tags, all
above the starting index. -/
theorem buildItems_tags :
    ∀ (rows : List JValue) (idx : Nat) (items : List Record),
      buildItems idx rows = .ok items →
      (∀ x ∈ items, idx + 1 ≤ idTag x.id)
      ∧ items.Pairwise (fun a b => idTag a.id < idTag b.id) := by
  intro rows
  induction rows with
  | nil =>
    intro idx items h
    simp only [buildItems] at h
    obtain rfl := (Except.ok.injEq _ _).mp h
    exact ⟨by simp, List.Pairwise.nil⟩
  | cons row rest ih =>
    intro idx items h
    cases row <;> simp only [buildItems] at h
    case jobj fields =>
      split at h
      next => exact absurd h (by simp)
      next r heq =>
        split at h
        next => exact absurd h (by simp)
        next rs heq2 =>
          obtain rfl := (Except.ok.injEq _ _).mp h
          obtain ⟨hlb, hpw⟩ := ih (idx + 1) rs heq2
          have hr : idTag r.id = idx + 1 := buildRow_id idx fields r heq
          constructor
          · intro x hx
            rcases List.mem_cons.mp hx with rfl | hx2
            · omega
            · have := hlb x hx2
              omega
          · refine List.Pairwise.cons ?_ hpw
            intro b hb
            have := hlb b hb
            omega
    all_goals
      obtain ⟨hlb, hpw⟩ := ih (idx + 1) items h
      exact ⟨fun x hx => by have := hlb x hx; omega, hpw⟩

/-- C4: record identifiers of a loaded catalog are pairwise distinct, even
for duplicate names: each id is the slug of the name followed by a hyphen
and the entry's 1-based source position, and those positions — recovered by
the tag extractor — are strictly increasing in the build. -/
theorem catalog_ids_unique :
    ∀ (content : JValue) (items : List Record),
      loadItems content = .ok items → (items.map Record.id).Nodup := by
  intro content items h
  cases content <;> simp only [loadItems] at h
  case jarr rows =>
    split at h
    next => exact absurd h (by simp)
    next pre heq =>
      obtain rfl := (Except.ok.injEq _ _).mp h
      obtain ⟨_, hpw⟩ := buildItems_tags rows 0 pre heq
      have hpre : (pre.map Record.id).Nodup := by
        refine List.pairwise_map.mpr ?_
        refine hpw.imp ?_
        intro a b hab hid
        rw [hid] at hab
        exact lt_irrefl _ hab
      exact hpre.perm ((List.perm_insertionSort priceLe pre).map Record.id).symm
  all_goals exact absurd h (by simp)

/-- C4 witness: two entries both named `"A"` load to ids `a-1` and `a-2`,
which are distinct. -/
theorem catalog_ids_unique_witness :
    (dupNameItems.map Record.id).Nodup :=
  catalog_ids_unique (.jarr dupNameRows) dupNameItems (by rfl)

end LaptopApp

